import Mathlib

/-!
Shallow embedding of the user-account backend (`src/app.py`).

The program is a Flask CRUD application over a single `users` table.  We
model the table as a `List User` kept in insertion order (the "natural
store order" of the spec), timestamps as `Nat`, and each route handler as
a pure function from the store and the request fields to an
`Except ApiError` result.  Randomness (the password salt) and the clock
(`datetime.utcnow()`) are passed as explicit parameters.

The password codec (`generate_password_hash` / `check_password_hash`) is
the werkzeug library, whose code is not part of this repository; it is
modelled from the spec (see the doc comments on those definitions).
-/

/-- Python's `str.strip()` on a character list: drop whitespace from both
ends.  (Lean's own `String.trim` is byte-position based and does not
reduce in the kernel, so we define the same operation structurally.) -/
def stripChars (l : List Char) : List Char :=
  ((l.dropWhile Char.isWhitespace).reverse.dropWhile Char.isWhitespace).reverse

/-- `s.strip()` from `src/app.py` (used on usernames, emails and the login
identifier). -/
def pyStrip (s : String) : String := ⟨stripChars s.data⟩

/-- `s.lower()` from `src/app.py` (used on emails). -/
def pyLower (s : String) : String := ⟨s.data.map Char.toLower⟩

/-- The `users` table row (`class User` in `src/app.py`): id, username,
email, encoded password, role, and the two timestamps. -/
structure User where
  id : Nat
  username : String
  email : String
  password : String
  role : String
  created_at : Nat
  updated_at : Nat
deriving Repr, DecidableEq

/-- The projection `User.to_dict` returns: every column except the
encoded password. -/
structure UserView where
  id : Nat
  username : String
  email : String
  role : String
  created_at : Nat
  updated_at : Nat
deriving Repr, DecidableEq

/-- `User.to_dict` from `src/app.py`: drop the password column. -/
def toDict (u : User) : UserView :=
  ⟨u.id, u.username, u.email, u.role, u.created_at, u.updated_at⟩

/-- The error taxonomy of the spec (§7); each arm corresponds to one of
the error returns in `src/app.py`. -/
inductive ApiError where
  | MissingField
  | PasswordTooShort
  | UsernameTaken
  | EmailTaken
  | AccountNotFound
  | InvalidCredential
  | LastAdminProtected
  | EmptyQuery
deriving Repr, DecidableEq

/-- Python truthiness of `data.get(field)`: the field is present and a
non-empty string (`if not data.get(field)` fails the request). -/
def fieldPresent (o : Option String) : Bool :=
  match o with
  | none => false
  | some s => !s.isEmpty

/-- Modelled from the spec: the algorithm identifier embedded in an
encoded credential (werkzeug's method tag; the library itself is not in
`src/`). -/
def methodTag : String := "pbkdf2:sha256:600000"

/-- Decimal-free digit rendering used by the modelled codec: binary
digits, least significant first.  Injective and never contains `'$'`. -/
def natDigits (n : Nat) : List Char :=
  if n < 2 then [Char.ofNat (48 + n)]
  else Char.ofNat (48 + n % 2) :: natDigits (n / 2)
decreasing_by exact Nat.div_lt_self (by omega) (by omega)

/-- Modelled from the spec: the one-way digest of the Credential Codec,
a function of the embedded salt (as rendered characters) and the
plaintext. -/
def digestVal (saltChars : List Char) (p : String) : Nat :=
  (saltChars ++ p.data).foldl (fun a c => a * 131 + c.toNat) 7

/-- Modelled from the spec: `generate_password_hash` (werkzeug, not in
`src/`).  Produces a self-describing `method$salt$digest` string; the
per-secret random salt is an explicit parameter. -/
def generate_password_hash (salt : Nat) (p : String) : String :=
  ⟨methodTag.data ++ '$' :: natDigits salt ++ '$' :: natDigits (digestVal (natDigits salt) p)⟩

/-- Split a character list at `'$'` separators: the segment before the
first separator, and the list of remaining segments. -/
def splitDollarCore : List Char → List Char × List (List Char)
  | [] => ([], [])
  | c :: cs =>
    let r := splitDollarCore cs
    if c = '$' then ([], r.1 :: r.2) else (c :: r.1, r.2)

/-- All `'$'`-separated segments of a character list. -/
def splitDollar (l : List Char) : List (List Char) :=
  (splitDollarCore l).1 :: (splitDollarCore l).2

/-- Modelled from the spec: `check_password_hash` (werkzeug, not in
`src/`).  Parses the `method$salt$digest` shape; any malformed input
verifies as `false`, and a well-formed input verifies iff the digest
recomputed from the embedded salt and the candidate matches. -/
def check_password_hash (stored : String) (candidate : String) : Bool :=
  match splitDollar stored.data with
  | [m, s, h] => m == methodTag.data && h == natDigits (digestVal s candidate)
  | _ => false

/-- Shape check used to state the malformed-input property: a stored
credential is well-shaped when it has exactly three `'$'`-separated
segments and the first is the algorithm tag. -/
def wellShaped (stored : String) : Bool :=
  match splitDollar stored.data with
  | [m, _, _] => m == methodTag.data
  | _ => false

/-- `register` (`src/app.py` lines 164-208): field presence, strip and
lowercase, password length, username/email uniqueness, then account
creation with `role='user'` and both timestamps set to now. -/
def register (db : List User) (username? email? password? : Option String)
    (newId salt now : Nat) : Except ApiError (List User × UserView) :=
  if !fieldPresent username? then .error .MissingField
  else if !fieldPresent email? then .error .MissingField
  else if !fieldPresent password? then .error .MissingField
  else
    let username := pyStrip (username?.getD "")
    let email := pyLower (pyStrip (email?.getD ""))
    let password := password?.getD ""
    if password.length < 6 then .error .PasswordTooShort
    else if db.any (fun a => a.username == username) then .error .UsernameTaken
    else if db.any (fun a => a.email == email) then .error .EmailTaken
    else
      let acct : User := ⟨newId, username, email, generate_password_hash salt password, "user", now, now⟩
      .ok (db ++ [acct], toDict acct)

/-- The store after a `register` call (unchanged when the call errors). -/
def registerDb (db : List User) (username? email? password? : Option String)
    (newId salt now : Nat) : List User :=
  match register db username? email? password? newId salt now with
  | .ok (db', _) => db'
  | .error _ => db

/-- The lookup `User.query.filter((User.username == identifier) |
(User.email == identifier)).first()` from `login`. -/
def findByIdent (db : List User) (ident : String) : Option User :=
  db.find? (fun a => a.username == ident || a.email == ident)

/-- Replace the first row with the given id (the ORM object mutated by
`login`/`update_user` is the first row the query returned). -/
def replaceById : List User → Nat → User → List User
  | [], _, _ => []
  | a :: as, id, b => if a.id == id then b :: as else a :: replaceById as id b

/-- `login` (`src/app.py` lines 234-267): strip the identifier, reject
empty identifier/password, look the identifier up against username or
email, verify the credential, and on success touch `updated_at`. -/
def login (db : List User) (username? password? : Option String) (now : Nat) :
    Except ApiError (List User × UserView) :=
  let identifier := pyStrip (username?.getD "")
  let password := password?.getD ""
  if identifier.isEmpty || password.isEmpty then .error .MissingField
  else
    match findByIdent db identifier with
    | none => .error .AccountNotFound
    | some u =>
      if !check_password_hash u.password password then .error .InvalidCredential
      else
        let u' := { u with updated_at := now }
        .ok (replaceById db u.id u', toDict u')

/-- The username block of `update_user` (`src/app.py` lines 366-373):
skip absent/empty input, skip an unchanged (stripped) value, reject a
collision with a row of a different id, otherwise assign. -/
def applyUsername (db : List User) (id : Nat) (t : User) (username? : Option String) :
    Except ApiError (User × Bool) :=
  match username? with
  | none => .ok (t, false)
  | some su =>
    if su.isEmpty then .ok (t, false)
    else
      let nu := pyStrip su
      if nu == t.username then .ok (t, false)
      else
        match db.find? (fun a => a.username == nu) with
        | some ex => if ex.id == id then .ok ({ t with username := nu }, true) else .error .UsernameTaken
        | none => .ok ({ t with username := nu }, true)

/-- The email block of `update_user` (`src/app.py` lines 375-382):
same as the username block with strip+lowercase normalization. -/
def applyEmail (db : List User) (id : Nat) (t : User) (email? : Option String) :
    Except ApiError (User × Bool) :=
  match email? with
  | none => .ok (t, false)
  | some se =>
    if se.isEmpty then .ok (t, false)
    else
      let ne := pyLower (pyStrip se)
      if ne == t.email then .ok (t, false)
      else
        match db.find? (fun a => a.email == ne) with
        | some ex => if ex.id == id then .ok ({ t with email := ne }, true) else .error .EmailTaken
        | none => .ok ({ t with email := ne }, true)

/-- The password block of `update_user` (`src/app.py` lines 384-389):
any non-empty password of length at least 6 is re-encoded and counts as
a change. -/
def applyPassword (t : User) (password? : Option String) (salt : Nat) :
    Except ApiError (User × Bool) :=
  match password? with
  | none => .ok (t, false)
  | some p =>
    if p.isEmpty then .ok (t, false)
    else if p.length < 6 then .error .PasswordTooShort
    else .ok ({ t with password := generate_password_hash salt p }, true)

/-- The role block of `update_user` (`src/app.py` lines 391-393): a role
outside `{user, admin}` is silently ignored; a recognized role is
assigned (and counts as a change) even when equal to the current one. -/
def applyRole (t : User) (role? : Option String) : User × Bool :=
  match role? with
  | none => (t, false)
  | some r => if r == "user" || r == "admin" then ({ t with role := r }, true) else (t, false)

/-- `update_user` (`src/app.py` lines 352-407): look the row up by id,
apply the four field blocks in source order, refresh `updated_at` iff
some block assigned, and write the row back. -/
def update_user (db : List User) (id : Nat)
    (username? email? password? role? : Option String) (salt now : Nat) :
    Except ApiError (List User × UserView) :=
  match db.find? (fun a => a.id == id) with
  | none => .error .AccountNotFound
  | some t =>
    match applyUsername db id t username? with
    | .error e => .error e
    | .ok (a1, u1) =>
      match applyEmail db id a1 email? with
      | .error e => .error e
      | .ok (a2, u2) =>
        match applyPassword a2 password? salt with
        | .error e => .error e
        | .ok (a3, u3) =>
          let ru := applyRole a3 role?
          let changed := u1 || u2 || u3 || ru.2
          let a5 := if changed then { ru.1 with updated_at := now } else ru.1
          .ok (replaceById db id a5, toDict a5)

/-- The store after an `update_user` call (unchanged when the call
errors). -/
def updateDb (db : List User) (id : Nat)
    (username? email? password? role? : Option String) (salt now : Nat) : List User :=
  match update_user db id username? email? password? role? salt now with
  | .ok (db', _) => db'
  | .error _ => db

/-- `User.query.filter_by(role='admin').count()` from `delete_user`. -/
def adminCount (db : List User) : Nat :=
  db.countP (fun a => a.role == "admin")

/-- `delete_user` (`src/app.py` lines 411-434): look the row up by id,
protect the last admin, otherwise remove exactly that row and return
its id. -/
def delete_user (db : List User) (id : Nat) : Except ApiError (List User × Nat) :=
  match db.find? (fun a => a.id == id) with
  | none => .error .AccountNotFound
  | some t =>
    if t.role == "admin" && decide (adminCount db ≤ 1) then .error .LastAdminProtected
    else .ok (db.eraseP (fun a => a.id == id), id)

/-- The store after a `delete_user` call (unchanged when the call
errors). -/
def deleteDb (db : List User) (id : Nat) : List User :=
  match delete_user db id with
  | .ok (db', _) => db'
  | .error _ => db

/-- SQL `LIKE` semantics (case-insensitive, as SQLAlchemy's `ilike`
compiles on SQLite): `'%'` matches any sequence, `'_'` any single
character, every other pattern character matches up to case. -/
def likeMatch (pat text : List Char) : Bool :=
  match pat, text with
  | [], t => t.isEmpty
  | p :: ps, t =>
    if p = '%' then t.tails.any (fun suf => likeMatch ps suf)
    else
      match t with
      | [] => false
      | c :: ts => (if p = '_' then true else p.toLower == c.toLower) && likeMatch ps ts

/-- `search_users` (`src/app.py` lines 438-459): empty query rejected,
otherwise the rows whose username or email matches the interpolated
pattern `%query%` under `ilike`, limited to 20, as `to_dict` views. -/
def search_users (db : List User) (q : String) : Except ApiError (List UserView) :=
  if q.isEmpty then .error .EmptyQuery
  else
    let pat := '%' :: q.data ++ ['%']
    .ok (((db.filter (fun a => likeMatch pat a.username.data || likeMatch pat a.email.data)).take 20).map toDict)

/-- Exact prefix test on character lists (spec side auxiliary). -/
def begMatch : List Char → List Char → Bool
  | [], _ => true
  | _ :: _, [] => false
  | a :: as, b :: bs => a == b && begMatch as bs

/-- Contiguous-segment containment on character lists (spec side
auxiliary). -/
def containsSeg (n : List Char) : List Char → Bool
  | [] => n.isEmpty
  | c :: t => begMatch n (c :: t) || containsSeg n t

/-- Stated from the spec's words for Search: `hay` contains `needle` as
a case-insensitive substring. -/
def strContainsCI (needle hay : String) : Bool :=
  containsSeg (needle.data.map Char.toLower) (hay.data.map Char.toLower)

/-- A query string free of SQL `LIKE` wildcard characters. -/
def noWildcards (q : String) : Prop :=
  ∀ c ∈ q.data, c ≠ '%' ∧ c ≠ '_'

/-- All stored usernames are strip-normalized. -/
def strippedUsernames (db : List User) : Prop :=
  ∀ b ∈ db, pyStrip b.username = b.username

/-- The username block of `update_user` actually assigns: a non-empty
username is supplied whose stripped value differs from the account's
current one. -/
def assignsUsername (t : User) (u? : Option String) : Prop :=
  ∃ su, u? = some su ∧ su.isEmpty = false ∧ pyStrip su ≠ t.username

/-- The email block of `update_user` actually assigns: a non-empty email
is supplied whose stripped and lowercased value differs from the
account's current one. -/
def assignsEmail (t : User) (e? : Option String) : Prop :=
  ∃ se, e? = some se ∧ se.isEmpty = false ∧ pyLower (pyStrip se) ≠ t.email

/-- The password block of `update_user` actually assigns: a non-empty
password of length at least 6 is supplied (it is always re-encoded). -/
def assignsPassword (p? : Option String) : Prop :=
  ∃ p, p? = some p ∧ p.isEmpty = false ∧ ¬p.length < 6

/-- The role block of `update_user` actually assigns: a role equal to
exactly `user` or `admin` is supplied (even if it equals the current
role). -/
def assignsRole (r? : Option String) : Prop :=
  ∃ r, r? = some r ∧ (r = "user" ∨ r = "admin")

/-! ### String and list auxiliary lemmas -/

theorem dropWhile_dropWhile_eq (p : Char → Bool) (l : List Char) :
    (l.dropWhile p).dropWhile p = l.dropWhile p := by
  induction l with
  | nil => rfl
  | cons a l ih =>
    by_cases h : p a = true
    · simp [List.dropWhile_cons, h, ih]
    · simp [List.dropWhile_cons, h]

theorem exists_append_dropWhile (p : Char → Bool) (l : List Char) :
    ∃ t, l = t ++ l.dropWhile p := by
  induction l with
  | nil => exact ⟨[], rfl⟩
  | cons a l ih =>
    by_cases h : p a = true
    · obtain ⟨t, ht⟩ := ih
      exact ⟨a :: t, by simp [List.dropWhile_cons, h]; exact ht⟩
    · exact ⟨[], by simp [List.dropWhile_cons, h]⟩

theorem dropWhile_eq_self_of_eq (p : Char → Bool) (l r : List Char)
    (hl : l.dropWhile p = l) (hpre : ∃ t, l = r ++ t) : r.dropWhile p = r := by
  obtain ⟨t, ht⟩ := hpre
  cases r with
  | nil => rfl
  | cons b r' =>
    have hb : p b = false := by
      by_contra hc
      have hb' : p b = true := by
        cases h2 : p b with
        | false => exact absurd h2 hc
        | true => rfl
      have hstep : l.dropWhile p = (r' ++ t).dropWhile p := by
        rw [ht, List.cons_append, List.dropWhile_cons, if_pos hb']
      have hlen : l.length = ((r' ++ t).dropWhile p).length :=
        congrArg List.length (hl.symm.trans hstep)
      have h1 : ((r' ++ t).dropWhile p).length ≤ r'.length + t.length := by
        have hsub : ((r' ++ t).dropWhile p).Sublist (r' ++ t) := List.dropWhile_sublist p
        have := hsub.length_le
        simpa using this
      have h4 : l.length = 1 + r'.length + t.length := by
        simp [ht]
        omega
      omega
    simp [List.dropWhile_cons, hb]

theorem stripChars_idem (l : List Char) : stripChars (stripChars l) = stripChars l := by
  set p := Char.isWhitespace with hp
  set A := l.dropWhile p with hA
  have hAdrop : A.dropWhile p = A := dropWhile_dropWhile_eq p l
  set B := (A.reverse.dropWhile p).reverse with hB
  have hBrev : B.reverse = A.reverse.dropWhile p := by simp [hB]
  have hBpre : ∃ t, A = B ++ t := by
    obtain ⟨t, ht⟩ := exists_append_dropWhile p A.reverse
    refine ⟨t.reverse, ?_⟩
    have := congrArg List.reverse ht
    simpa [hB, List.reverse_append] using this
  have hBdrop : B.dropWhile p = B := dropWhile_eq_self_of_eq p A B hAdrop hBpre
  show ((B.dropWhile p).reverse.dropWhile p).reverse = B
  rw [hBdrop, hBrev, dropWhile_dropWhile_eq, ← hBrev, List.reverse_reverse]

theorem pyStrip_idem (s : String) : pyStrip (pyStrip s) = pyStrip s := by
  show (⟨stripChars (pyStrip s).data⟩ : String) = ⟨stripChars s.data⟩
  have : (pyStrip s).data = stripChars s.data := rfl
  rw [this, stripChars_idem]

theorem string_ne_isEmpty {s : String} (h : s ≠ "") : s.isEmpty = false := by
  rw [Bool.eq_false_iff]
  intro hc
  exact h ((String.isEmpty_iff s).mp hc)

/-! ### Credential codec lemmas -/

theorem splitDollarCore_no_dollar (l : List Char) (h : ∀ c ∈ l, c ≠ '$') :
    splitDollarCore l = (l, []) := by
  induction l with
  | nil => rfl
  | cons c cs ih =>
    have hc : c ≠ '$' := h c (by simp)
    have := ih (fun d hd => h d (by simp [hd]))
    simp [splitDollarCore, this, hc]

theorem splitDollarCore_append (a b : List Char) (h : ∀ c ∈ a, c ≠ '$') :
    splitDollarCore (a ++ '$' :: b) = (a, (splitDollarCore b).1 :: (splitDollarCore b).2) := by
  induction a with
  | nil => simp [splitDollarCore]
  | cons c cs ih =>
    have hc : c ≠ '$' := h c (by simp)
    have := ih (fun d hd => h d (by simp [hd]))
    simp [splitDollarCore, this, hc]

theorem splitDollar_three (m a b : List Char)
    (hm : ∀ c ∈ m, c ≠ '$') (ha : ∀ c ∈ a, c ≠ '$') (hb : ∀ c ∈ b, c ≠ '$') :
    splitDollar (m ++ '$' :: (a ++ '$' :: b)) = [m, a, b] := by
  unfold splitDollar
  rw [splitDollarCore_append m (a ++ '$' :: b) hm,
    splitDollarCore_append a b ha, splitDollarCore_no_dollar b hb]

theorem natDigits_no_dollar (n : Nat) : ∀ c ∈ natDigits n, c ≠ '$' := by
  induction n using Nat.strong_induction_on with
  | _ n ih =>
    rw [natDigits.eq_def]
    by_cases h : n < 2
    · rw [if_pos h]
      interval_cases n <;> decide
    · rw [if_neg h]
      intro c hc
      rcases List.mem_cons.mp hc with h1 | h1
      · subst h1
        have h2 : n % 2 < 2 := Nat.mod_lt _ (by omega)
        interval_cases h3 : n % 2 <;> simp [h3]
      · exact ih (n / 2) (Nat.div_lt_self (by omega) (by omega)) c h1

theorem natDigits_ne_nil (n : Nat) : natDigits n ≠ [] := by
  rw [natDigits.eq_def]
  by_cases h : n < 2 <;> simp [h]

theorem digit_char_inj {a b : Nat} (ha : a < 2) (hb : b < 2)
    (h : Char.ofNat (48 + a) = Char.ofNat (48 + b)) : a = b := by
  interval_cases a <;> interval_cases b <;> first | rfl | (exact absurd h (by decide))

theorem natDigits_inj : ∀ m n : Nat, natDigits m = natDigits n → m = n := by
  intro m
  induction m using Nat.strong_induction_on with
  | _ m ih =>
    intro n h
    have hM := natDigits.eq_def m
    have hN := natDigits.eq_def n
    rw [hM, hN] at h
    by_cases hm : m < 2 <;> by_cases hn : n < 2
    · rw [if_pos hm, if_pos hn] at h
      exact digit_char_inj hm hn (by injection h)
    · rw [if_pos hm, if_neg hn] at h
      injection h with h1 h2
      exact absurd h2.symm (natDigits_ne_nil _)
    · rw [if_neg hm, if_pos hn] at h
      injection h with h1 h2
      exact absurd h2 (natDigits_ne_nil _)
    · rw [if_neg hm, if_neg hn] at h
      injection h with h1 h2
      have hmod : m % 2 = n % 2 :=
        digit_char_inj (Nat.mod_lt _ (by omega)) (Nat.mod_lt _ (by omega)) h1
      have hdiv : m / 2 = n / 2 :=
        ih (m / 2) (Nat.div_lt_self (by omega) (by omega)) (n / 2) h2
      omega

theorem methodTag_no_dollar : ∀ c ∈ methodTag.data, c ≠ '$' := by decide

theorem hash_data_eq (salt : Nat) (p : String) :
    (generate_password_hash salt p).data
      = methodTag.data ++ '$' :: (natDigits salt ++ '$' :: natDigits (digestVal (natDigits salt) p)) := by
  rfl

theorem roundtrip_aux (salt : Nat) (p : String) :
    check_password_hash (generate_password_hash salt p) p = true := by
  unfold check_password_hash
  rw [hash_data_eq,
    splitDollar_three _ _ _ methodTag_no_dollar (natDigits_no_dollar salt)
      (natDigits_no_dollar _)]
  simp

/-- C2: for every plaintext `p` and salt, verifying `p` against its own
encoding succeeds, and two encodings of the same plaintext under
different salts yield different encoded values (the encoding is salted,
not deterministic). -/
theorem codec_roundtrip_salted :
    (∀ (salt : Nat) (p : String),
      check_password_hash (generate_password_hash salt p) p = true)
  ∧ (∀ (s1 s2 : Nat) (p : String), s1 ≠ s2 →
      generate_password_hash s1 p ≠ generate_password_hash s2 p) := by
  constructor
  · exact roundtrip_aux
  · intro s1 s2 p hne heq
    apply hne
    have hd := congrArg String.data heq
    rw [hash_data_eq, hash_data_eq] at hd
    have hsp := congrArg splitDollar hd
    rw [splitDollar_three _ _ _ methodTag_no_dollar (natDigits_no_dollar s1)
        (natDigits_no_dollar _),
      splitDollar_three _ _ _ methodTag_no_dollar (natDigits_no_dollar s2)
        (natDigits_no_dollar _)] at hsp
    injection hsp with h1 h2
    injection h2 with h3 h4
    exact natDigits_inj s1 s2 h3

theorem codec_roundtrip_salted_witness :
    check_password_hash (generate_password_hash 0 "secret1") "secret1" = true
  ∧ generate_password_hash 0 "secret1" ≠ generate_password_hash 1 "secret1" :=
  ⟨codec_roundtrip_salted.1 0 "secret1",
   codec_roundtrip_salted.2 0 1 "secret1" (by omega)⟩

/-- C8: a malformed stored credential verifies as `false` for every
candidate (the codec never raises), and a matched account whose stored
credential is malformed makes Authenticate return `InvalidCredential`
rather than aborting. -/
theorem verify_malformed_never_aborts :
    (∀ stored cand : String, wellShaped stored = false →
      check_password_hash stored cand = false)
  ∧ (∀ (db : List User) (u : User) (ident pw : String) (now : Nat),
      pyStrip ident ≠ "" → pw ≠ "" →
      findByIdent db (pyStrip ident) = some u → wellShaped u.password = false →
      login db (some ident) (some pw) now = .error .InvalidCredential) := by
  have hverify : ∀ stored cand : String, wellShaped stored = false →
      check_password_hash stored cand = false := by
    intro stored cand h
    unfold wellShaped at h
    unfold check_password_hash
    rcases hL : splitDollar stored.data with _ | ⟨m, _ | ⟨s, _ | ⟨h3, _ | ⟨x, rest⟩⟩⟩⟩ <;>
      simp_all
  refine ⟨hverify, ?_⟩
  intro db u ident pw now hid hpw hfind hbad
  simp [login, string_ne_isEmpty hid, string_ne_isEmpty hpw, hfind,
    hverify u.password pw hbad]

theorem verify_malformed_never_aborts_witness :
    check_password_hash "garbage" "secret1" = false
  ∧ login [⟨1, "admin", "admin@example.com", "garbage", "admin", 0, 0⟩]
      (some "admin") (some "pw") 5 = .error .InvalidCredential := by
  constructor
  · exact verify_malformed_never_aborts.1 "garbage" "secret1" (by decide)
  · exact verify_malformed_never_aborts.2
      [⟨1, "admin", "admin@example.com", "garbage", "admin", 0, 0⟩]
      ⟨1, "admin", "admin@example.com", "garbage", "admin", 0, 0⟩
      "admin" "pw" 5 (by decide) (by decide) (by decide) (by decide)

/-! ### Store helper lemmas -/

theorem replaceById_self (db : List User) (id : Nat) (t : User)
    (h : db.find? (fun a => a.id == id) = some t) : replaceById db id t = db := by
  induction db with
  | nil => simp [List.find?] at h
  | cons a as ih =>
    cases hc : (a.id == id) with
    | true =>
      simp only [List.find?, hc] at h
      injection h with h1
      subst h1
      simp [replaceById, hc]
    | false =>
      simp only [List.find?, hc] at h
      simp [replaceById, hc, ih h]

theorem mem_replaceById (db : List User) (id : Nat) (x b : User)
    (h : b ∈ replaceById db id x) : b ∈ db ∨ b = x := by
  induction db with
  | nil => simp [replaceById] at h
  | cons a as ih =>
    by_cases hc : (a.id == id) = true
    · simp [replaceById, hc] at h
      rcases h with h | h
      · exact Or.inr h
      · exact Or.inl (List.mem_cons.mpr (Or.inr h))
    · simp [replaceById, hc] at h
      rcases h with h | h
      · exact Or.inl (List.mem_cons.mpr (Or.inl h))
      · rcases ih h with h2 | h2
        · exact Or.inl (List.mem_cons.mpr (Or.inr h2))
        · exact Or.inr h2

theorem find?_first {α : Type} (p : α → Bool) (l1 l2 : List α) (x : α)
    (h1 : ∀ b ∈ l1, p b = false) (hx : p x = true) :
    List.find? p (l1 ++ x :: l2) = some x := by
  induction l1 with
  | nil => simpa using List.find?_cons_of_pos _ hx
  | cons c cs ih =>
    have hc : ¬p c = true := by simp [h1 c (by simp)]
    rw [List.cons_append, List.find?_cons_of_neg _ hc]
    exact ih (fun b hb => h1 b (by simp [hb]))

/-! ### Register characterization lemmas -/

theorem register_missing (db : List User) (u? e? p? : Option String) (newId salt now : Nat)
    (h : ¬(fieldPresent u? = true ∧ fieldPresent e? = true ∧ fieldPresent p? = true)) :
    register db u? e? p? newId salt now = .error .MissingField := by
  cases hu : fieldPresent u? <;> cases he : fieldPresent e? <;> cases hp : fieldPresent p? <;>
    simp [register, hu, he, hp] at h ⊢

theorem register_short (db : List User) (u? e? p? : Option String) (newId salt now : Nat)
    (hu : fieldPresent u? = true) (he : fieldPresent e? = true) (hp : fieldPresent p? = true)
    (hlen : (p?.getD "").length < 6) :
    register db u? e? p? newId salt now = .error .PasswordTooShort := by
  simp [register, hu, he, hp, hlen]

theorem register_user_taken (db : List User) (u? e? p? : Option String) (newId salt now : Nat)
    (hu : fieldPresent u? = true) (he : fieldPresent e? = true) (hp : fieldPresent p? = true)
    (hlen : ¬(p?.getD "").length < 6)
    (hex : ∃ a ∈ db, a.username = pyStrip (u?.getD "")) :
    register db u? e? p? newId salt now = .error .UsernameTaken := by
  have hany : db.any (fun a => a.username == pyStrip (u?.getD "")) = true := by
    rw [List.any_eq_true]
    obtain ⟨a, ha, hae⟩ := hex
    exact ⟨a, ha, beq_iff_eq.mpr hae⟩
  simp [register, hu, he, hp, hlen, hany]

theorem register_email_taken (db : List User) (u? e? p? : Option String) (newId salt now : Nat)
    (hu : fieldPresent u? = true) (he : fieldPresent e? = true) (hp : fieldPresent p? = true)
    (hlen : ¬(p?.getD "").length < 6)
    (hnu : ¬∃ a ∈ db, a.username = pyStrip (u?.getD ""))
    (hex : ∃ a ∈ db, a.email = pyLower (pyStrip (e?.getD ""))) :
    register db u? e? p? newId salt now = .error .EmailTaken := by
  have hanyu : db.any (fun a => a.username == pyStrip (u?.getD "")) = false := by
    rw [List.any_eq_false]
    intro x hx
    simp only [beq_iff_eq]
    exact fun hc => hnu ⟨x, hx, hc⟩
  have hanye : db.any (fun a => a.email == pyLower (pyStrip (e?.getD ""))) = true := by
    rw [List.any_eq_true]
    obtain ⟨a, ha, hae⟩ := hex
    exact ⟨a, ha, beq_iff_eq.mpr hae⟩
  simp [register, hu, he, hp, hlen, hanyu, hanye]

theorem register_success (db : List User) (u? e? p? : Option String) (newId salt now : Nat)
    (hu : fieldPresent u? = true) (he : fieldPresent e? = true) (hp : fieldPresent p? = true)
    (hlen : ¬(p?.getD "").length < 6)
    (hnu : ¬∃ a ∈ db, a.username = pyStrip (u?.getD ""))
    (hne : ¬∃ a ∈ db, a.email = pyLower (pyStrip (e?.getD ""))) :
    register db u? e? p? newId salt now
      = .ok (db ++ [⟨newId, pyStrip (u?.getD ""), pyLower (pyStrip (e?.getD "")),
                     generate_password_hash salt (p?.getD ""), "user", now, now⟩],
             ⟨newId, pyStrip (u?.getD ""), pyLower (pyStrip (e?.getD "")), "user", now, now⟩) := by
  have hanyu : db.any (fun a => a.username == pyStrip (u?.getD "")) = false := by
    rw [List.any_eq_false]
    intro x hx
    simp only [beq_iff_eq]
    exact fun hc => hnu ⟨x, hx, hc⟩
  have hanye : db.any (fun a => a.email == pyLower (pyStrip (e?.getD ""))) = false := by
    rw [List.any_eq_false]
    intro x hx
    simp only [beq_iff_eq]
    exact fun hc => hne ⟨x, hx, hc⟩
  simp [register, hu, he, hp, hlen, hanyu, hanye, toDict]

/-- C1: Register validates in fail-fast order: missing/empty field →
`MissingField`; password shorter than 6 → `PasswordTooShort`; username
already taken → `UsernameTaken`; email (trimmed and lowercased) already
taken → `EmailTaken`; otherwise it creates the account with `role=user`,
an encoded password and `created_at = updated_at = now`, and returns it. -/
theorem register_spec (db : List User) (u? e? p? : Option String) (newId salt now : Nat) :
    (¬(fieldPresent u? = true ∧ fieldPresent e? = true ∧ fieldPresent p? = true) →
      register db u? e? p? newId salt now = .error .MissingField)
  ∧ (fieldPresent u? = true → fieldPresent e? = true → fieldPresent p? = true →
      (p?.getD "").length < 6 →
      register db u? e? p? newId salt now = .error .PasswordTooShort)
  ∧ (fieldPresent u? = true → fieldPresent e? = true → fieldPresent p? = true →
      ¬(p?.getD "").length < 6 →
      (∃ a ∈ db, a.username = pyStrip (u?.getD "")) →
      register db u? e? p? newId salt now = .error .UsernameTaken)
  ∧ (fieldPresent u? = true → fieldPresent e? = true → fieldPresent p? = true →
      ¬(p?.getD "").length < 6 →
      ¬(∃ a ∈ db, a.username = pyStrip (u?.getD "")) →
      (∃ a ∈ db, a.email = pyLower (pyStrip (e?.getD ""))) →
      register db u? e? p? newId salt now = .error .EmailTaken)
  ∧ (fieldPresent u? = true → fieldPresent e? = true → fieldPresent p? = true →
      ¬(p?.getD "").length < 6 →
      ¬(∃ a ∈ db, a.username = pyStrip (u?.getD "")) →
      ¬(∃ a ∈ db, a.email = pyLower (pyStrip (e?.getD ""))) →
      register db u? e? p? newId salt now
        = .ok (db ++ [⟨newId, pyStrip (u?.getD ""), pyLower (pyStrip (e?.getD "")),
                       generate_password_hash salt (p?.getD ""), "user", now, now⟩],
               ⟨newId, pyStrip (u?.getD ""), pyLower (pyStrip (e?.getD "")), "user", now, now⟩)) :=
  ⟨register_missing db u? e? p? newId salt now,
   register_short db u? e? p? newId salt now,
   register_user_taken db u? e? p? newId salt now,
   register_email_taken db u? e? p? newId salt now,
   register_success db u? e? p? newId salt now⟩

theorem register_spec_witness :
    register ([] : List User) none (some "e@x.yy") (some "secret1") 1 2 3 = .error .MissingField
  ∧ register ([] : List User) (some "bob") (some "e@x.yy") (some "sh") 1 2 3
      = .error .PasswordTooShort
  ∧ register [⟨1, "bob", "b@x.yy", "cred", "user", 0, 0⟩]
      (some " bob") (some "e@x.yy") (some "secret1") 2 2 3 = .error .UsernameTaken
  ∧ register [⟨1, "bob", "b@x.yy", "cred", "user", 0, 0⟩]
      (some "al") (some " B@X.yy") (some "secret1") 2 2 3 = .error .EmailTaken
  ∧ register [⟨1, "bob", "b@x.yy", "cred", "user", 0, 0⟩]
      (some "al") (some "A@Y.zz ") (some "secret1") 2 5 9
      = .ok ([⟨1, "bob", "b@x.yy", "cred", "user", 0, 0⟩,
              ⟨2, pyStrip "al", pyLower (pyStrip "A@Y.zz "),
               generate_password_hash 5 "secret1", "user", 9, 9⟩],
             ⟨2, pyStrip "al", pyLower (pyStrip "A@Y.zz "), "user", 9, 9⟩) := by
  refine ⟨?_, ?_, ?_, ?_, ?_⟩
  · exact (register_spec [] none (some "e@x.yy") (some "secret1") 1 2 3).1 (by decide)
  · exact (register_spec [] (some "bob") (some "e@x.yy") (some "sh") 1 2 3).2.1
      (by decide) (by decide) (by decide) (by decide)
  · exact (register_spec [⟨1, "bob", "b@x.yy", "cred", "user", 0, 0⟩]
      (some " bob") (some "e@x.yy") (some "secret1") 2 2 3).2.2.1
      (by decide) (by decide) (by decide) (by decide) (by decide)
  · exact (register_spec [⟨1, "bob", "b@x.yy", "cred", "user", 0, 0⟩]
      (some "al") (some " B@X.yy") (some "secret1") 2 2 3).2.2.2.1
      (by decide) (by decide) (by decide) (by decide) (by decide) (by decide)
  · exact (register_spec [⟨1, "bob", "b@x.yy", "cred", "user", 0, 0⟩]
      (some "al") (some "A@Y.zz ") (some "secret1") 2 5 9).2.2.2.2
      (by decide) (by decide) (by decide) (by decide) (by decide) (by decide)

/-! ### Update block characterization lemmas -/

theorem applyUsername_error (db : List User) (id : Nat) (t : User) (u? : Option String)
    (e : ApiError) (h : applyUsername db id t u? = .error e) : e = .UsernameTaken := by
  unfold applyUsername at h
  cases u? with
  | none => simp at h
  | some su =>
    by_cases h1 : su.isEmpty = true
    · simp [h1] at h
    · simp only [Bool.not_eq_true] at h1
      by_cases h2 : (pyStrip su == t.username) = true
      · simp [h1, h2] at h
      · simp only [Bool.not_eq_true] at h2
        rcases hf : db.find? (fun a => a.username == pyStrip su) with _ | ex
        · simp [h1, h2, hf] at h
        · by_cases h3 : (ex.id == id) = true
          · simp [h1, h2, hf, h3] at h
          · simp only [Bool.not_eq_true] at h3
            simp [h1, h2, hf, h3] at h
            exact h.symm

theorem applyUsername_ok (db : List User) (id : Nat) (t : User) (u? : Option String)
    (a : User) (fl : Bool) (h : applyUsername db id t u? = .ok (a, fl)) :
    (a = t ∧ fl = false) ∨ (∃ su, u? = some su ∧ a = { t with username := pyStrip su } ∧ fl = true) := by
  unfold applyUsername at h
  cases u? with
  | none =>
    simp at h
    exact Or.inl ⟨h.1.symm, h.2⟩
  | some su =>
    by_cases h1 : su.isEmpty = true
    · simp [h1] at h
      exact Or.inl ⟨h.1.symm, h.2⟩
    · simp only [Bool.not_eq_true] at h1
      by_cases h2 : (pyStrip su == t.username) = true
      · simp [h1, h2] at h
        exact Or.inl ⟨h.1.symm, h.2⟩
      · simp only [Bool.not_eq_true] at h2
        rcases hf : db.find? (fun a => a.username == pyStrip su) with _ | ex
        · simp [h1, h2, hf] at h
          exact Or.inr ⟨su, rfl, h.1.symm, h.2⟩
        · by_cases h3 : (ex.id == id) = true
          · simp [h1, h2, hf, h3] at h
            exact Or.inr ⟨su, rfl, h.1.symm, h.2⟩
          · simp only [Bool.not_eq_true] at h3
            simp [h1, h2, hf, h3] at h

theorem applyEmail_error (db : List User) (id : Nat) (t : User) (e? : Option String)
    (e : ApiError) (h : applyEmail db id t e? = .error e) : e = .EmailTaken := by
  unfold applyEmail at h
  cases e? with
  | none => simp at h
  | some se =>
    by_cases h1 : se.isEmpty = true
    · simp [h1] at h
    · simp only [Bool.not_eq_true] at h1
      by_cases h2 : (pyLower (pyStrip se) == t.email) = true
      · simp [h1, h2] at h
      · simp only [Bool.not_eq_true] at h2
        rcases hf : db.find? (fun a => a.email == pyLower (pyStrip se)) with _ | ex
        · simp [h1, h2, hf] at h
        · by_cases h3 : (ex.id == id) = true
          · simp [h1, h2, hf, h3] at h
          · simp only [Bool.not_eq_true] at h3
            simp [h1, h2, hf, h3] at h
            exact h.symm

theorem applyEmail_ok (db : List User) (id : Nat) (t : User) (e? : Option String)
    (a : User) (fl : Bool) (h : applyEmail db id t e? = .ok (a, fl)) :
    (a = t ∧ fl = false) ∨ (∃ se, e? = some se ∧ a = { t with email := pyLower (pyStrip se) } ∧ fl = true) := by
  unfold applyEmail at h
  cases e? with
  | none =>
    simp at h
    exact Or.inl ⟨h.1.symm, h.2⟩
  | some se =>
    by_cases h1 : se.isEmpty = true
    · simp [h1] at h
      exact Or.inl ⟨h.1.symm, h.2⟩
    · simp only [Bool.not_eq_true] at h1
      by_cases h2 : (pyLower (pyStrip se) == t.email) = true
      · simp [h1, h2] at h
        exact Or.inl ⟨h.1.symm, h.2⟩
      · simp only [Bool.not_eq_true] at h2
        rcases hf : db.find? (fun a => a.email == pyLower (pyStrip se)) with _ | ex
        · simp [h1, h2, hf] at h
          exact Or.inr ⟨se, rfl, h.1.symm, h.2⟩
        · by_cases h3 : (ex.id == id) = true
          · simp [h1, h2, hf, h3] at h
            exact Or.inr ⟨se, rfl, h.1.symm, h.2⟩
          · simp only [Bool.not_eq_true] at h3
            simp [h1, h2, hf, h3] at h

theorem applyPassword_error (t : User) (p? : Option String) (salt : Nat)
    (e : ApiError) (h : applyPassword t p? salt = .error e) : e = .PasswordTooShort := by
  unfold applyPassword at h
  cases p? with
  | none => simp at h
  | some p =>
    by_cases h1 : p.isEmpty = true
    · simp [h1] at h
    · simp only [Bool.not_eq_true] at h1
      by_cases h2 : p.length < 6
      · simp [h1, h2] at h
        exact h.symm
      · simp [h1, h2] at h

theorem applyPassword_ok (t : User) (p? : Option String) (salt : Nat)
    (a : User) (fl : Bool) (h : applyPassword t p? salt = .ok (a, fl)) :
    (a = t ∧ fl = false) ∨ (∃ p, p? = some p ∧ a = { t with password := generate_password_hash salt p } ∧ fl = true) := by
  unfold applyPassword at h
  cases p? with
  | none =>
    simp at h
    exact Or.inl ⟨h.1.symm, h.2⟩
  | some p =>
    by_cases h1 : p.isEmpty = true
    · simp [h1] at h
      exact Or.inl ⟨h.1.symm, h.2⟩
    · simp only [Bool.not_eq_true] at h1
      by_cases h2 : p.length < 6
      · simp [h1, h2] at h
      · simp [h1, h2] at h
        exact Or.inr ⟨p, rfl, h.1.symm, h.2⟩

theorem applyRole_shape (t : User) (r? : Option String) :
    (applyRole t r?).1 = t ∨ ∃ r, r? = some r ∧ (applyRole t r?).1 = { t with role := r } := by
  unfold applyRole
  cases r? with
  | none => exact Or.inl rfl
  | some r =>
    by_cases h : (r == "user" || r == "admin") = true
    · simp [h]
    · simp [h]

theorem applyUsername_none_eq (db : List User) (id : Nat) (t : User) :
    applyUsername db id t none = .ok (t, false) := rfl

theorem applyUsername_empty_eq (db : List User) (id : Nat) (t : User) (su : String)
    (h : su.isEmpty = true) : applyUsername db id t (some su) = .ok (t, false) := by
  simp [applyUsername, h]

theorem applyUsername_self_eq (db : List User) (id : Nat) (t : User) (su : String)
    (h : pyStrip su = t.username) : applyUsername db id t (some su) = .ok (t, false) := by
  by_cases h1 : su.isEmpty = true
  · simp [applyUsername, h1]
  · simp only [Bool.not_eq_true] at h1
    simp [applyUsername, h1, h]

theorem applyEmail_none_eq (db : List User) (id : Nat) (t : User) :
    applyEmail db id t none = .ok (t, false) := rfl

theorem applyEmail_empty_eq (db : List User) (id : Nat) (t : User) (se : String)
    (h : se.isEmpty = true) : applyEmail db id t (some se) = .ok (t, false) := by
  simp [applyEmail, h]

theorem applyEmail_self_eq (db : List User) (id : Nat) (t : User) (se : String)
    (h : pyLower (pyStrip se) = t.email) : applyEmail db id t (some se) = .ok (t, false) := by
  by_cases h1 : se.isEmpty = true
  · simp [applyEmail, h1]
  · simp only [Bool.not_eq_true] at h1
    simp [applyEmail, h1, h]

theorem applyUsername_taken_eq (db : List User) (id : Nat) (t : User) (su : String)
    (hnodup : (db.map (fun a => a.id)).Nodup)
    (ht : db.find? (fun a => a.id == id) = some t)
    (h1 : su.isEmpty = false) (h2 : pyStrip su ≠ t.username)
    (hex : ∃ b ∈ db, b.id ≠ id ∧ b.username = pyStrip su) :
    applyUsername db id t (some su) = .error .UsernameTaken := by
  have hsome : (db.find? (fun a => a.username == pyStrip su)).isSome = true := by
    rw [List.find?_isSome]
    obtain ⟨b, hb, _, hbu⟩ := hex
    exact ⟨b, hb, beq_iff_eq.mpr hbu⟩
  rcases hf : db.find? (fun a => a.username == pyStrip su) with _ | ex
  · rw [hf] at hsome
    simp at hsome
  · have hexmem : ex ∈ db := List.mem_of_find?_eq_some hf
    have hexu0 := List.find?_some hf
    have hexu : ex.username = pyStrip su := beq_iff_eq.mp hexu0
    have htmem : t ∈ db := List.mem_of_find?_eq_some ht
    have htid0 := List.find?_some ht
    have htid : t.id = id := beq_iff_eq.mp htid0
    have hexid : ex.id ≠ id := by
      intro hc
      have : ex = t := List.inj_on_of_nodup_map hnodup hexmem htmem (by rw [hc, htid])
      rw [this] at hexu
      exact h2 hexu.symm
    have h2b : (pyStrip su == t.username) = false := beq_eq_false_iff_ne.mpr h2
    have h3b : (ex.id == id) = false := beq_eq_false_iff_ne.mpr hexid
    simp [applyUsername, h1, h2b, hf, h3b]

theorem applyEmail_taken_eq (db : List User) (id : Nat) (t : User) (se : String)
    (hnodup : (db.map (fun a => a.id)).Nodup)
    (ht : db.find? (fun a => a.id == id) = some t)
    (h1 : se.isEmpty = false) (h2 : pyLower (pyStrip se) ≠ t.email)
    (hex : ∃ b ∈ db, b.id ≠ id ∧ b.email = pyLower (pyStrip se)) :
    applyEmail db id t (some se) = .error .EmailTaken := by
  have hsome : (db.find? (fun a => a.email == pyLower (pyStrip se))).isSome = true := by
    rw [List.find?_isSome]
    obtain ⟨b, hb, _, hbe⟩ := hex
    exact ⟨b, hb, beq_iff_eq.mpr hbe⟩
  rcases hf : db.find? (fun a => a.email == pyLower (pyStrip se)) with _ | ex
  · rw [hf] at hsome
    simp at hsome
  · have hexmem : ex ∈ db := List.mem_of_find?_eq_some hf
    have hexe0 := List.find?_some hf
    have hexe : ex.email = pyLower (pyStrip se) := beq_iff_eq.mp hexe0
    have htmem : t ∈ db := List.mem_of_find?_eq_some ht
    have htid0 := List.find?_some ht
    have htid : t.id = id := beq_iff_eq.mp htid0
    have hexid : ex.id ≠ id := by
      intro hc
      have : ex = t := List.inj_on_of_nodup_map hnodup hexmem htmem (by rw [hc, htid])
      rw [this] at hexe
      exact h2 hexe.symm
    have h2b : (pyLower (pyStrip se) == t.email) = false := beq_eq_false_iff_ne.mpr h2
    have h3b : (ex.id == id) = false := beq_eq_false_iff_ne.mpr hexid
    simp [applyEmail, h1, h2b, hf, h3b]

theorem update_username_taken_source (db : List User) (id : Nat) (t : User)
    (u? e? p? r? : Option String) (salt now : Nat)
    (ht : db.find? (fun a => a.id == id) = some t)
    (h : update_user db id u? e? p? r? salt now = .error .UsernameTaken) :
    applyUsername db id t u? = .error .UsernameTaken := by
  unfold update_user at h
  simp only [ht] at h
  rcases h1 : applyUsername db id t u? with e1 | ⟨a1, f1⟩ <;> simp only [h1] at h
  · injection h with he
    rw [he]
  · exfalso
    rcases h2 : applyEmail db id a1 e? with e2 | ⟨a2, f2⟩ <;> simp only [h2] at h
    · have he := applyEmail_error db id a1 e? e2 h2
      rw [he] at h
      simp at h
    · rcases h3 : applyPassword a2 p? salt with e3 | ⟨a3, f3⟩ <;> simp only [h3] at h
      · have he := applyPassword_error a2 p? salt e3 h3
        rw [he] at h
        simp at h
      · simp at h

theorem update_email_taken_source (db : List User) (id : Nat) (t : User)
    (u? e? p? r? : Option String) (salt now : Nat)
    (ht : db.find? (fun a => a.id == id) = some t)
    (h : update_user db id u? e? p? r? salt now = .error .EmailTaken) :
    ∃ a1 f1, applyUsername db id t u? = .ok (a1, f1)
      ∧ applyEmail db id a1 e? = .error .EmailTaken := by
  unfold update_user at h
  simp only [ht] at h
  rcases h1 : applyUsername db id t u? with e1 | ⟨a1, f1⟩ <;> simp only [h1] at h
  · exfalso
    have he := applyUsername_error db id t u? e1 h1
    rw [he] at h
    simp at h
  · rcases h2 : applyEmail db id a1 e? with e2 | ⟨a2, f2⟩ <;> simp only [h2] at h
    · have he := applyEmail_error db id a1 e? e2 h2
      subst he
      exact ⟨a1, f1, rfl, h2⟩
    · exfalso
      rcases h3 : applyPassword a2 p? salt with e3 | ⟨a3, f3⟩ <;> simp only [h3] at h
      · have he := applyPassword_error a2 p? salt e3 h3
        rw [he] at h
        simp at h
      · simp at h

theorem update_noop_eq (db : List User) (id : Nat) (t : User) (u? e? : Option String)
    (salt now : Nat) (ht : db.find? (fun a => a.id == id) = some t)
    (hu : ∀ su, u? = some su → su.isEmpty = false → pyStrip su = t.username)
    (he : ∀ se, e? = some se → se.isEmpty = false → pyLower (pyStrip se) = t.email) :
    update_user db id u? e? none none salt now = .ok (db, toDict t) := by
  have hu' : applyUsername db id t u? = .ok (t, false) := by
    cases u? with
    | none => rfl
    | some su =>
      cases h1 : su.isEmpty with
      | true => exact applyUsername_empty_eq db id t su h1
      | false => exact applyUsername_self_eq db id t su (hu su rfl h1)
  have he' : applyEmail db id t e? = .ok (t, false) := by
    cases e? with
    | none => rfl
    | some se =>
      cases h1 : se.isEmpty with
      | true => exact applyEmail_empty_eq db id t se h1
      | false => exact applyEmail_self_eq db id t se (he se rfl h1)
  simp [update_user, ht, hu', he', applyPassword, applyRole, replaceById_self db id t ht]

theorem update_role_valid_eq (db : List User) (id : Nat) (t : User) (r : String)
    (salt now : Nat) (ht : db.find? (fun a => a.id == id) = some t)
    (hr : r = "user" ∨ r = "admin") :
    update_user db id none none none (some r) salt now
      = .ok (replaceById db id { t with role := r, updated_at := now },
             toDict { t with role := r, updated_at := now }) := by
  have hb : (r == "user" || r == "admin") = true := by
    rcases hr with h | h <;> simp [h]
  simp [update_user, ht, applyUsername, applyEmail, applyPassword, applyRole, hb]

theorem update_role_invalid_eq (db : List User) (id : Nat) (t : User) (r : String)
    (salt now : Nat) (ht : db.find? (fun a => a.id == id) = some t)
    (hr1 : r ≠ "user") (hr2 : r ≠ "admin") :
    update_user db id none none none (some r) salt now = .ok (db, toDict t) := by
  have hb1 : (r == "user") = false := beq_eq_false_iff_ne.mpr hr1
  have hb2 : (r == "admin") = false := beq_eq_false_iff_ne.mpr hr2
  simp [update_user, ht, applyUsername, applyEmail, applyPassword, applyRole, hb1, hb2,
    replaceById_self db id t ht]

/-- C5: during Update, a supplied username or email whose processed value
equals the target's own current value is never a `UsernameTaken` /
`EmailTaken` error (self-collision excluded), while a processed value
that differs from the target's and equals a different account's value
fails with `UsernameTaken` / `EmailTaken`; uniqueness only counts
accounts whose id differs from the updated account's id. -/
theorem update_self_collision_spec (db : List User) (id : Nat) (t : User)
    (u? e? p? r? : Option String) (salt now : Nat)
    (ht : db.find? (fun a => a.id == id) = some t) :
    (∀ su, u? = some su → pyStrip su = t.username →
      update_user db id u? e? p? r? salt now ≠ .error .UsernameTaken)
  ∧ (∀ se, e? = some se → pyLower (pyStrip se) = t.email →
      update_user db id u? e? p? r? salt now ≠ .error .EmailTaken)
  ∧ ((db.map (fun a => a.id)).Nodup → ∀ su, u? = some su → su.isEmpty = false →
      pyStrip su ≠ t.username → (∃ b ∈ db, b.id ≠ id ∧ b.username = pyStrip su) →
      update_user db id u? e? p? r? salt now = .error .UsernameTaken)
  ∧ ((db.map (fun a => a.id)).Nodup → u? = none → ∀ se, e? = some se → se.isEmpty = false →
      pyLower (pyStrip se) ≠ t.email → (∃ b ∈ db, b.id ≠ id ∧ b.email = pyLower (pyStrip se)) →
      update_user db id u? e? p? r? salt now = .error .EmailTaken) := by
  refine ⟨?_, ?_, ?_, ?_⟩
  · intro su hsu hself hcontra
    subst hsu
    have hsrc := update_username_taken_source db id t (some su) e? p? r? salt now ht hcontra
    cases h1 : su.isEmpty with
    | true =>
      rw [applyUsername_empty_eq db id t su h1] at hsrc
      simp at hsrc
    | false =>
      rw [applyUsername_self_eq db id t su hself] at hsrc
      simp at hsrc
  · intro se hse hself hcontra
    subst hse
    obtain ⟨a1, f1, h1, h2⟩ :=
      update_email_taken_source db id t u? (some se) p? r? salt now ht hcontra
    have hemail : a1.email = t.email := by
      rcases applyUsername_ok db id t u? a1 f1 h1 with ⟨ha, _⟩ | ⟨su, _, ha, _⟩ <;> simp [ha]
    rw [applyEmail_self_eq db id a1 se (by rw [hself, hemail])] at h2
    simp at h2
  · intro hnodup su hsu h1 h2 hex
    subst hsu
    have hu := applyUsername_taken_eq db id t su hnodup ht h1 h2 hex
    simp [update_user, ht, hu]
  · intro hnodup hu se hse h1 h2 hex
    subst hu
    subst hse
    have he := applyEmail_taken_eq db id t se hnodup ht h1 h2 hex
    simp [update_user, ht, applyUsername, he]

theorem update_self_collision_spec_witness :
    update_user [⟨1, "alice", "a@x.yy", "c1", "user", 0, 0⟩, ⟨2, "bob", "b@x.yy", "c2", "user", 0, 0⟩]
      1 (some "alice") none none none 3 9 ≠ .error .UsernameTaken
  ∧ update_user [⟨1, "alice", "a@x.yy", "c1", "user", 0, 0⟩, ⟨2, "bob", "b@x.yy", "c2", "user", 0, 0⟩]
      1 (some "bob") none none none 3 9 = .error .UsernameTaken
  ∧ update_user [⟨1, "alice", "a@x.yy", "c1", "user", 0, 0⟩, ⟨2, "bob", "b@x.yy", "c2", "user", 0, 0⟩]
      1 none (some " B@X.yy") none none 3 9 = .error .EmailTaken := by
  refine ⟨?_, ?_, ?_⟩
  · exact (update_self_collision_spec _ 1 ⟨1, "alice", "a@x.yy", "c1", "user", 0, 0⟩
      (some "alice") none none none 3 9 (by decide)).1 "alice" rfl (by decide)
  · exact (update_self_collision_spec _ 1 ⟨1, "alice", "a@x.yy", "c1", "user", 0, 0⟩
      (some "bob") none none none 3 9 (by decide)).2.2.1 (by decide) "bob" rfl (by decide)
      (by decide) (by decide)
  · exact (update_self_collision_spec _ 1 ⟨1, "alice", "a@x.yy", "c1", "user", 0, 0⟩
      none (some " B@X.yy") none none 3 9 (by decide)).2.2.2 (by decide) rfl " B@X.yy" rfl
      (by decide) (by decide) (by decide)

/-- C6: an Update supplying only a role outside `{user, admin}` is
silently ignored — the operation reports success and the stored role
(indeed the whole store) is unchanged — while a role equal to exactly
`user` or `admin` is accepted and stored. -/
theorem update_role_policy (db : List User) (id : Nat) (t : User) (r : String) (salt now : Nat)
    (ht : db.find? (fun a => a.id == id) = some t) :
    (r ≠ "user" → r ≠ "admin" →
      update_user db id none none none (some r) salt now = .ok (db, toDict t))
  ∧ (r = "user" ∨ r = "admin" →
      update_user db id none none none (some r) salt now
        = .ok (replaceById db id { t with role := r, updated_at := now },
               toDict { t with role := r, updated_at := now })) :=
  ⟨fun h1 h2 => update_role_invalid_eq db id t r salt now ht h1 h2,
   fun hr => update_role_valid_eq db id t r salt now ht hr⟩

theorem update_role_policy_witness :
    update_user [⟨1, "bob", "b@x.yy", "cred", "user", 0, 10⟩] 1 none none none
      (some "superadmin") 3 99 = .ok ([⟨1, "bob", "b@x.yy", "cred", "user", 0, 10⟩],
        toDict ⟨1, "bob", "b@x.yy", "cred", "user", 0, 10⟩)
  ∧ update_user [⟨1, "bob", "b@x.yy", "cred", "user", 0, 10⟩] 1 none none none
      (some "admin") 3 99
      = .ok (replaceById [⟨1, "bob", "b@x.yy", "cred", "user", 0, 10⟩] 1
          { (⟨1, "bob", "b@x.yy", "cred", "user", 0, 10⟩ : User) with role := "admin", updated_at := 99 },
        toDict { (⟨1, "bob", "b@x.yy", "cred", "user", 0, 10⟩ : User) with role := "admin", updated_at := 99 }) := by
  constructor
  · exact (update_role_policy [⟨1, "bob", "b@x.yy", "cred", "user", 0, 10⟩] 1
      ⟨1, "bob", "b@x.yy", "cred", "user", 0, 10⟩ "superadmin" 3 99 (by decide)).1
      (by decide) (by decide)
  · exact (update_role_policy [⟨1, "bob", "b@x.yy", "cred", "user", 0, 10⟩] 1
      ⟨1, "bob", "b@x.yy", "cred", "user", 0, 10⟩ "admin" 3 99 (by decide)).2
      (Or.inr rfl)

theorem ok_noop_inv (t a : User) (fl : Bool)
    (h : (.ok (t, false) : Except ApiError (User × Bool)) = .ok (a, fl)) :
    fl = false ∧ a = t := by
  simp at h
  exact ⟨h.2, h.1.symm⟩

theorem applyUsername_flag (db : List User) (id : Nat) (t : User) (u? : Option String)
    (a : User) (fl : Bool) (h : applyUsername db id t u? = .ok (a, fl)) :
    (assignsUsername t u? → fl = true)
  ∧ (¬assignsUsername t u? → fl = false ∧ a = t) := by
  constructor
  · rintro ⟨su, hsu, h1, h2⟩
    subst hsu
    simp only [applyUsername] at h
    rw [if_neg (by simp [h1])] at h
    rw [if_neg (by simp only [beq_iff_eq]; exact h2)] at h
    rcases hf : db.find? (fun x => x.username == pyStrip su) with _ | ex <;>
      simp only [hf] at h
    · cases fl with
      | true => rfl
      | false => simp at h
    · by_cases hid : (ex.id == id) = true
      · rw [if_pos hid] at h
        cases fl with
        | true => rfl
        | false => simp at h
      · rw [if_neg hid] at h
        simp at h
  · intro hna
    cases u? with
    | none =>
      rw [applyUsername_none_eq] at h
      exact ok_noop_inv t a fl h
    | some su =>
      by_cases h1 : su.isEmpty = true
      · rw [applyUsername_empty_eq db id t su h1] at h
        exact ok_noop_inv t a fl h
      · by_cases h2 : pyStrip su = t.username
        · rw [applyUsername_self_eq db id t su h2] at h
          exact ok_noop_inv t a fl h
        · have h1' : su.isEmpty = false := by
            simp only [Bool.not_eq_true] at h1
            exact h1
          exact absurd ⟨su, rfl, h1', h2⟩ hna

theorem applyEmail_flag (db : List User) (id : Nat) (t : User) (e? : Option String)
    (a : User) (fl : Bool) (h : applyEmail db id t e? = .ok (a, fl)) :
    (assignsEmail t e? → fl = true)
  ∧ (¬assignsEmail t e? → fl = false ∧ a = t) := by
  constructor
  · rintro ⟨se, hse, h1, h2⟩
    subst hse
    simp only [applyEmail] at h
    rw [if_neg (by simp [h1])] at h
    rw [if_neg (by simp only [beq_iff_eq]; exact h2)] at h
    rcases hf : db.find? (fun x => x.email == pyLower (pyStrip se)) with _ | ex <;>
      simp only [hf] at h
    · cases fl with
      | true => rfl
      | false => simp at h
    · by_cases hid : (ex.id == id) = true
      · rw [if_pos hid] at h
        cases fl with
        | true => rfl
        | false => simp at h
      · rw [if_neg hid] at h
        simp at h
  · intro hna
    cases e? with
    | none =>
      rw [applyEmail_none_eq] at h
      exact ok_noop_inv t a fl h
    | some se =>
      by_cases h1 : se.isEmpty = true
      · rw [applyEmail_empty_eq db id t se h1] at h
        exact ok_noop_inv t a fl h
      · by_cases h2 : pyLower (pyStrip se) = t.email
        · rw [applyEmail_self_eq db id t se h2] at h
          exact ok_noop_inv t a fl h
        · have h1' : se.isEmpty = false := by
            simp only [Bool.not_eq_true] at h1
            exact h1
          exact absurd ⟨se, rfl, h1', h2⟩ hna

theorem applyPassword_flag (t : User) (p? : Option String) (salt : Nat)
    (a : User) (fl : Bool) (h : applyPassword t p? salt = .ok (a, fl)) :
    (assignsPassword p? → fl = true)
  ∧ (¬assignsPassword p? → fl = false ∧ a = t)
  ∧ (∀ p, p? = some p → p.isEmpty = false →
      a = { t with password := generate_password_hash salt p } ∧ fl = true) := by
  refine ⟨?_, ?_, ?_⟩
  · rintro ⟨p, hp, h1, h2⟩
    subst hp
    simp only [applyPassword] at h
    rw [if_neg (by simp [h1]), if_neg h2] at h
    cases fl with
    | true => rfl
    | false => simp at h
  · intro hna
    cases p? with
    | none =>
      simp only [applyPassword] at h
      exact ok_noop_inv t a fl h
    | some p =>
      by_cases h1 : p.isEmpty = true
      · simp only [applyPassword] at h
        rw [if_pos h1] at h
        exact ok_noop_inv t a fl h
      · have h1' : p.isEmpty = false := by
          simp only [Bool.not_eq_true] at h1
          exact h1
        by_cases h2 : p.length < 6
        · simp only [applyPassword] at h
          rw [if_neg (by simp [h1']), if_pos h2] at h
          simp at h
        · exact absurd ⟨p, rfl, h1', h2⟩ hna
  · intro p hp h1
    subst hp
    simp only [applyPassword] at h
    rw [if_neg (by simp [h1])] at h
    by_cases h2 : p.length < 6
    · rw [if_pos h2] at h
      simp at h
    · rw [if_neg h2] at h
      cases fl with
      | true =>
        refine ⟨?_, rfl⟩
        simp at h
        exact h.symm
      | false => simp at h

theorem applyRole_flag (t : User) (r? : Option String) :
    ((applyRole t r?).2 = true ↔ assignsRole r?)
  ∧ ((applyRole t r?).2 = false → (applyRole t r?).1 = t)
  ∧ (applyRole t r?).1.password = t.password := by
  cases r? with
  | none =>
    refine ⟨?_, fun _ => rfl, rfl⟩
    simp [applyRole, assignsRole]
  | some r =>
    by_cases hv : (r == "user" || r == "admin") = true
    · have hr : r = "user" ∨ r = "admin" := by simpa using hv
      refine ⟨?_, ?_, ?_⟩
      · constructor
        · intro _
          exact ⟨r, rfl, hr⟩
        · intro _
          simp [applyRole, hv]
      · intro hcontra
        simp [applyRole, hv] at hcontra
      · simp [applyRole, hv]
    · have hr : ¬(r = "user" ∨ r = "admin") := by
        intro hc
        apply hv
        rcases hc with h | h <;> simp [h]
      refine ⟨?_, ?_, ?_⟩
      · constructor
        · intro hc
          simp [applyRole, hv] at hc
        · rintro ⟨r2, hr2, hval⟩
          injection hr2 with he
          subst he
          exact absurd hval hr
      · intro _
        simp [applyRole, hv]
      · simp [applyRole, hv]

/-- C7 (amended): a successful Update refreshes `updated_at` iff at
least one field block actually assigns — username/email only when the
processed value differs from the current one, a valid supplied password
always (re-encoded with a fresh salt), and a recognized supplied role
always, even when it equals the current role; when no block assigns the
store and the account, `updated_at` included, are left entirely
unchanged. -/
theorem update_timestamp_spec (db : List User) (id : Nat) (t : User)
    (u? e? p? r? : Option String) (salt now : Nat)
    (ht : db.find? (fun a => a.id == id) = some t)
    (db' : List User) (v : UserView)
    (h : update_user db id u? e? p? r? salt now = .ok (db', v)) :
    ((assignsUsername t u? ∨ assignsEmail t e? ∨ assignsPassword p? ∨ assignsRole r?) →
      ∃ b, db' = replaceById db id b ∧ v = toDict b ∧ b.updated_at = now)
  ∧ (¬(assignsUsername t u? ∨ assignsEmail t e? ∨ assignsPassword p? ∨ assignsRole r?) →
      db' = db ∧ v = toDict t)
  ∧ (∀ p, p? = some p → p.isEmpty = false →
      ∃ b, db' = replaceById db id b ∧ v = toDict b
        ∧ b.password = generate_password_hash salt p ∧ b.updated_at = now) := by
  unfold update_user at h
  simp only [ht] at h
  rcases h1 : applyUsername db id t u? with e1 | ⟨a1, f1⟩ <;> simp only [h1] at h
  · simp at h
  · rcases h2 : applyEmail db id a1 e? with e2 | ⟨a2, f2⟩ <;> simp only [h2] at h
    · simp at h
    · rcases h3 : applyPassword a2 p? salt with e3 | ⟨a3, f3⟩ <;> simp only [h3] at h
      · simp at h
      · injection h with hpair
        have hdb' := congrArg Prod.fst hpair
        have hv := congrArg Prod.snd hpair
        dsimp at hdb' hv
        subst hdb'
        subst hv
        have hemail : a1.email = t.email := by
          rcases applyUsername_ok db id t u? a1 f1 h1 with ⟨ha, _⟩ | ⟨su, _, ha, _⟩ <;>
            simp [ha]
        refine ⟨?_, ?_, ?_⟩
        · intro hassign
          have hc : (f1 || f2 || f3 || (applyRole a3 r?).2) = true := by
            rcases hassign with hx | hx | hx | hx
            · simp [(applyUsername_flag db id t u? a1 f1 h1).1 hx]
            · have hx1 : assignsEmail a1 e? := by
                obtain ⟨se, ha, hb, hcne⟩ := hx
                exact ⟨se, ha, hb, by rw [hemail]; exact hcne⟩
              simp [(applyEmail_flag db id a1 e? a2 f2 h2).1 hx1]
            · simp [(applyPassword_flag a2 p? salt a3 f3 h3).1 hx]
            · simp [(applyRole_flag a3 r?).1.mpr hx]
          refine ⟨_, rfl, rfl, ?_⟩
          rw [if_pos hc]
        · intro hna
          have hn1 : ¬assignsUsername t u? := fun hx => hna (Or.inl hx)
          have hn2 : ¬assignsEmail t e? := fun hx => hna (Or.inr (Or.inl hx))
          have hn3 : ¬assignsPassword p? := fun hx => hna (Or.inr (Or.inr (Or.inl hx)))
          have hn4 : ¬assignsRole r? := fun hx => hna (Or.inr (Or.inr (Or.inr hx)))
          obtain ⟨hf1, ha1⟩ := (applyUsername_flag db id t u? a1 f1 h1).2 hn1
          rw [ha1] at h2
          subst hf1
          obtain ⟨hf2, ha2⟩ := (applyEmail_flag db id t e? a2 f2 h2).2 hn2
          rw [ha2] at h3
          subst hf2
          obtain ⟨hf3, ha3⟩ := (applyPassword_flag t p? salt a3 f3 h3).2.1 hn3
          subst hf3
          rw [ha3]
          have hr2 : (applyRole t r?).2 = false := by
            cases hb : (applyRole t r?).2 with
            | false => rfl
            | true => exact absurd ((applyRole_flag t r?).1.mp hb) hn4
          rw [hr2, if_neg (by simp), (applyRole_flag t r?).2.1 hr2]
          exact ⟨replaceById_self db id t ht, rfl⟩
        · intro p hp hpe
          obtain ⟨ha3, hf3⟩ :=
            (applyPassword_flag a2 p? salt a3 f3 h3).2.2 p hp hpe
          subst hf3
          have hc : (f1 || f2 || true || (applyRole a3 r?).2) = true := by simp
          refine ⟨_, rfl, rfl, ?_, ?_⟩
          · rw [if_pos hc]
            show (applyRole a3 r?).1.password = generate_password_hash salt p
            rw [(applyRole_flag a3 r?).2.2, ha3]
          · rw [if_pos hc]

/-- Refutes C7 as stated: supplying only `role = "user"` on an account
whose role is already `"user"` changes no field value, yet the code
refreshes `updated_at` (from 10 to 99) and reports success. -/
theorem update_timestamp_counterexample :
    update_user [⟨1, "bob", "b@x.yy", "cred", "user", 0, 10⟩] 1 none none none
      (some "user") 3 99
      = .ok ([⟨1, "bob", "b@x.yy", "cred", "user", 0, 99⟩],
             ⟨1, "bob", "b@x.yy", "user", 0, 99⟩) := by rfl

theorem update_timestamp_spec_witness :
    (∃ b, [⟨1, "carol", "b@x.yy", "cred", "user", 0, 99⟩]
        = replaceById [⟨1, "bob", "b@x.yy", "cred", "user", 0, 10⟩] 1 b
      ∧ (⟨1, "carol", "b@x.yy", "user", 0, 99⟩ : UserView) = toDict b ∧ b.updated_at = 99)
  ∧ ([(⟨1, "bob", "b@x.yy", "cred", "user", 0, 10⟩ : User)]
        = [⟨1, "bob", "b@x.yy", "cred", "user", 0, 10⟩]
      ∧ (⟨1, "bob", "b@x.yy", "user", 0, 10⟩ : UserView)
        = toDict ⟨1, "bob", "b@x.yy", "cred", "user", 0, 10⟩)
  ∧ (∃ b, [⟨1, "bob", "b@x.yy", generate_password_hash 5 "newpass1", "user", 0, 99⟩]
        = replaceById [⟨1, "bob", "b@x.yy", "cred", "user", 0, 10⟩] 1 b
      ∧ (⟨1, "bob", "b@x.yy", "user", 0, 99⟩ : UserView) = toDict b
      ∧ b.password = generate_password_hash 5 "newpass1" ∧ b.updated_at = 99)
  ∧ (∃ b, [⟨1, "bob", "b@x.yy", "cred", "user", 0, 99⟩]
        = replaceById [⟨1, "bob", "b@x.yy", "cred", "user", 0, 10⟩] 1 b
      ∧ (⟨1, "bob", "b@x.yy", "user", 0, 99⟩ : UserView) = toDict b ∧ b.updated_at = 99) := by
  refine ⟨?_, ?_, ?_, ?_⟩
  · exact (update_timestamp_spec [⟨1, "bob", "b@x.yy", "cred", "user", 0, 10⟩] 1
      ⟨1, "bob", "b@x.yy", "cred", "user", 0, 10⟩ (some "carol") none none none 3 99
      (by decide) [⟨1, "carol", "b@x.yy", "cred", "user", 0, 99⟩]
      ⟨1, "carol", "b@x.yy", "user", 0, 99⟩ (by rfl)).1
      (Or.inl ⟨"carol", rfl, by decide, by decide⟩)
  · exact (update_timestamp_spec [⟨1, "bob", "b@x.yy", "cred", "user", 0, 10⟩] 1
      ⟨1, "bob", "b@x.yy", "cred", "user", 0, 10⟩ (some " bob") none none none 3 99
      (by decide) [⟨1, "bob", "b@x.yy", "cred", "user", 0, 10⟩]
      ⟨1, "bob", "b@x.yy", "user", 0, 10⟩ (by rfl)).2.1
      (by
        rintro (⟨su, hsu, hb1, hb2⟩ | ⟨se, hse, _, _⟩ | ⟨p, hp, _, _⟩ | ⟨r, hr, _⟩)
        · injection hsu with he
          subst he
          exact hb2 (by decide)
        · exact Option.noConfusion hse
        · exact Option.noConfusion hp
        · exact Option.noConfusion hr)
  · exact (update_timestamp_spec [⟨1, "bob", "b@x.yy", "cred", "user", 0, 10⟩] 1
      ⟨1, "bob", "b@x.yy", "cred", "user", 0, 10⟩ none none (some "newpass1") none 5 99
      (by decide) [⟨1, "bob", "b@x.yy", generate_password_hash 5 "newpass1", "user", 0, 99⟩]
      ⟨1, "bob", "b@x.yy", "user", 0, 99⟩ (by rfl)).2.2
      "newpass1" rfl (by decide)
  · exact (update_timestamp_spec [⟨1, "bob", "b@x.yy", "cred", "user", 0, 10⟩] 1
      ⟨1, "bob", "b@x.yy", "cred", "user", 0, 10⟩ none none none (some "user") 3 99
      (by decide) [⟨1, "bob", "b@x.yy", "cred", "user", 0, 99⟩]
      ⟨1, "bob", "b@x.yy", "user", 0, 99⟩ (by rfl)).1
      (Or.inr (Or.inr (Or.inr ⟨"user", rfl, Or.inl rfl⟩)))

theorem registerDb_cases (db : List User) (u? e? p? : Option String) (newId salt now : Nat) :
    registerDb db u? e? p? newId salt now = db ∨
    registerDb db u? e? p? newId salt now
      = db ++ [⟨newId, pyStrip (u?.getD ""), pyLower (pyStrip (e?.getD "")),
               generate_password_hash salt (p?.getD ""), "user", now, now⟩] := by
  unfold registerDb register
  dsimp only
  split_ifs <;> first | exact Or.inl rfl | exact Or.inr rfl

theorem updateDb_stripped (db : List User) (id : Nat) (u? e? p? r? : Option String)
    (salt now : Nat) (h : strippedUsernames db) :
    strippedUsernames (updateDb db id u? e? p? r? salt now) := by
  unfold updateDb
  rcases hf : db.find? (fun a => a.id == id) with _ | t
  · simp only [update_user, hf]
    exact h
  · rcases h1 : applyUsername db id t u? with e1 | ⟨a1, f1⟩
    · simp only [update_user, hf, h1]
      exact h
    · rcases h2 : applyEmail db id a1 e? with e2 | ⟨a2, f2⟩
      · simp only [update_user, hf, h1, h2]
        exact h
      · rcases h3 : applyPassword a2 p? salt with e3 | ⟨a3, f3⟩
        · simp only [update_user, hf, h1, h2, h3]
          exact h
        · simp only [update_user, hf, h1, h2, h3]
          intro b hb
          rcases mem_replaceById db id _ b hb with hb' | hb'
          · exact h b hb'
          · have h3u : a3.username = a2.username := by
              rcases applyPassword_ok a2 p? salt a3 f3 h3 with ⟨ha, _⟩ | ⟨p, _, ha, _⟩ <;>
                simp [ha]
            have h2u : a2.username = a1.username := by
              rcases applyEmail_ok db id a1 e? a2 f2 h2 with ⟨ha, _⟩ | ⟨se, _, ha, _⟩ <;>
                simp [ha]
            have hru : (applyRole a3 r?).1.username = a3.username := by
              rcases applyRole_shape a3 r? with ha | ⟨r, _, ha⟩ <;> simp [ha]
            have hbu : b.username = a1.username := by
              rw [hb']
              split <;> simp [hru, h3u, h2u]
            rcases applyUsername_ok db id t u? a1 f1 h1 with ⟨ha, _⟩ | ⟨su, _, ha, _⟩
            · rw [hbu, ha]
              exact h t (List.mem_of_find?_eq_some hf)
            · rw [hbu, ha]
              exact pyStrip_idem _

/-- C10: Register and Update strip surrounding whitespace from the
supplied username before the uniqueness check and before storage: a
registration whose username strips to an existing account's username
fails with `UsernameTaken`, and stores whose usernames are all
strip-normalized stay that way under Register and Update. -/
theorem strip_username_spec :
    (∀ (db : List User) (a : User) (u : String) (e? p? : Option String) (newId salt now : Nat),
      a ∈ db → fieldPresent (some u) = true → fieldPresent e? = true →
      fieldPresent p? = true → ¬(p?.getD "").length < 6 → pyStrip u = a.username →
      register db (some u) e? p? newId salt now = .error .UsernameTaken)
  ∧ (∀ (db : List User) (u? e? p? : Option String) (newId salt now : Nat),
      strippedUsernames db → strippedUsernames (registerDb db u? e? p? newId salt now))
  ∧ (∀ (db : List User) (id : Nat) (u? e? p? r? : Option String) (salt now : Nat),
      strippedUsernames db → strippedUsernames (updateDb db id u? e? p? r? salt now)) := by
  refine ⟨?_, ?_, ?_⟩
  · intro db a u e? p? newId salt now ha hu he hp hlen hstrip
    exact register_user_taken db (some u) e? p? newId salt now hu he hp hlen
      ⟨a, ha, hstrip.symm⟩
  · intro db u? e? p? newId salt now h
    rcases registerDb_cases db u? e? p? newId salt now with hc | hc <;> rw [hc]
    · exact h
    · intro b hb
      rcases List.mem_append.mp hb with hb' | hb'
      · exact h b hb'
      · have hbe : b = ⟨newId, pyStrip (u?.getD ""), pyLower (pyStrip (e?.getD "")),
            generate_password_hash salt (p?.getD ""), "user", now, now⟩ := by
          simpa using hb'
        rw [hbe]
        exact pyStrip_idem _
  · exact fun db id u? e? p? r? salt now h => updateDb_stripped db id u? e? p? r? salt now h

theorem strip_username_spec_witness :
    register [⟨1, "bob", "b@x.yy", "cred", "user", 0, 0⟩] (some "  bob  ") (some "e@x.yy")
      (some "secret1") 2 3 9 = .error .UsernameTaken
  ∧ strippedUsernames (registerDb [⟨1, "bob", "b@x.yy", "cred", "user", 0, 0⟩]
      (some " al ") (some "e@x.yy") (some "secret1") 2 3 9)
  ∧ strippedUsernames (updateDb [⟨1, "bob", "b@x.yy", "cred", "user", 0, 0⟩] 1
      (some " carol ") none none none 3 9) := by
  refine ⟨?_, ?_, ?_⟩
  · exact strip_username_spec.1 [⟨1, "bob", "b@x.yy", "cred", "user", 0, 0⟩]
      ⟨1, "bob", "b@x.yy", "cred", "user", 0, 0⟩ "  bob  " (some "e@x.yy") (some "secret1")
      2 3 9 (by decide) (by decide) (by decide) (by decide) (by decide) (by decide)
  · exact strip_username_spec.2.1 _ _ _ _ _ _ _
      (by unfold strippedUsernames; decide)
  · exact strip_username_spec.2.2 _ _ _ _ _ _ _ _
      (by unfold strippedUsernames; decide)

/-- C4 (amended): Authenticate first strips surrounding whitespace from
the supplied identifier; the stripped identifier is then compared for
exact equality (no case normalization) against each stored account's
username and email; an empty stripped identifier or empty password gives
`MissingField`; no match gives `AccountNotFound`; failed credential
verification gives `InvalidCredential`; on success `updated_at` is
refreshed and the account is returned without its credential field. -/
theorem login_spec (db : List User) (u? p? : Option String) (now : Nat) :
    (pyStrip (u?.getD "") = "" ∨ p?.getD "" = "" →
      login db u? p? now = .error .MissingField)
  ∧ (pyStrip (u?.getD "") ≠ "" → p?.getD "" ≠ "" →
      findByIdent db (pyStrip (u?.getD "")) = none →
      login db u? p? now = .error .AccountNotFound)
  ∧ (∀ u, pyStrip (u?.getD "") ≠ "" → p?.getD "" ≠ "" →
      findByIdent db (pyStrip (u?.getD "")) = some u →
      check_password_hash u.password (p?.getD "") = false →
      login db u? p? now = .error .InvalidCredential)
  ∧ (∀ u, pyStrip (u?.getD "") ≠ "" → p?.getD "" ≠ "" →
      findByIdent db (pyStrip (u?.getD "")) = some u →
      check_password_hash u.password (p?.getD "") = true →
      login db u? p? now = .ok (replaceById db u.id { u with updated_at := now },
        toDict { u with updated_at := now })) := by
  refine ⟨?_, ?_, ?_, ?_⟩
  · intro h
    rcases h with h | h
    · have he : (pyStrip (u?.getD "")).isEmpty = true := (String.isEmpty_iff _).mpr h
      simp [login, he]
    · have he : (p?.getD "").isEmpty = true := (String.isEmpty_iff _).mpr h
      simp [login, he]
  · intro h1 h2 h3
    simp [login, string_ne_isEmpty h1, string_ne_isEmpty h2, h3]
  · intro u h1 h2 h3 h4
    simp [login, string_ne_isEmpty h1, string_ne_isEmpty h2, h3, h4]
  · intro u h1 h2 h3 h4
    simp [login, string_ne_isEmpty h1, string_ne_isEmpty h2, h3, h4]

/-- Refutes C4 as stated: no stored account's username or email equals
the raw identifier `" admin"` under exact comparison, so the claim
demands `AccountNotFound`, yet the code strips the identifier, matches
the `"admin"` account, and fails later with `InvalidCredential`. -/
theorem login_exact_match_counterexample :
    findByIdent [⟨1, "admin", "admin@example.com", "cred", "admin", 0, 0⟩] " admin" = none
  ∧ login [⟨1, "admin", "admin@example.com", "cred", "admin", 0, 0⟩]
      (some " admin") (some "pw") 5 = .error .InvalidCredential :=
  ⟨rfl, rfl⟩

theorem login_spec_witness :
    login ([] : List User) (some "  ") (some "pw") 7 = .error .MissingField
  ∧ login ([] : List User) (some "bob") (some "pw") 7 = .error .AccountNotFound
  ∧ login [⟨1, "bob", "b@x.yy", "cred", "user", 0, 0⟩] (some "bob") (some "pw") 7
      = .error .InvalidCredential
  ∧ login [⟨1, "bob", "b@x.yy", generate_password_hash 5 "pw123456", "user", 0, 2⟩]
      (some "bob") (some "pw123456") 7
      = .ok (replaceById [⟨1, "bob", "b@x.yy", generate_password_hash 5 "pw123456", "user", 0, 2⟩] 1
          { (⟨1, "bob", "b@x.yy", generate_password_hash 5 "pw123456", "user", 0, 2⟩ : User) with
              updated_at := 7 },
        toDict { (⟨1, "bob", "b@x.yy", generate_password_hash 5 "pw123456", "user", 0, 2⟩ : User) with
              updated_at := 7 }) := by
  refine ⟨?_, ?_, ?_, ?_⟩
  · exact (login_spec [] (some "  ") (some "pw") 7).1 (Or.inl (by decide))
  · exact (login_spec [] (some "bob") (some "pw") 7).2.1 (by decide) (by decide) rfl
  · exact (login_spec [⟨1, "bob", "b@x.yy", "cred", "user", 0, 0⟩] (some "bob") (some "pw") 7).2.2.1
      ⟨1, "bob", "b@x.yy", "cred", "user", 0, 0⟩ (by decide) (by decide) (by decide) (by decide)
  · have hg : pyStrip ((some "bob").getD "") = "bob" := by decide
    have hfind : findByIdent
        [⟨1, "bob", "b@x.yy", generate_password_hash 5 "pw123456", "user", 0, 2⟩]
        (pyStrip ((some "bob").getD "")) = some
        ⟨1, "bob", "b@x.yy", generate_password_hash 5 "pw123456", "user", 0, 2⟩ := by
      rw [hg]
      exact List.find?_cons_of_pos _ (by simp)
    exact (login_spec [⟨1, "bob", "b@x.yy", generate_password_hash 5 "pw123456", "user", 0, 2⟩]
      (some "bob") (some "pw123456") 7).2.2.2
      ⟨1, "bob", "b@x.yy", generate_password_hash 5 "pw123456", "user", 0, 2⟩
      (by decide) (by decide) hfind (roundtrip_aux 5 "pw123456")

theorem delete_decomp (db : List User) (id : Nat) (t : User)
    (ht : db.find? (fun a => a.id == id) = some t) :
    ∃ l1 l2, (∀ b ∈ l1, (b.id == id) = false) ∧ db = l1 ++ t :: l2
      ∧ db.eraseP (fun a => a.id == id) = l1 ++ l2 := by
  have htmem : t ∈ db := List.mem_of_find?_eq_some ht
  have htp0 := List.find?_some ht
  have htp : (t.id == id) = true := htp0
  obtain ⟨a, l1, l2, hl1, hpa, hdb, herase⟩ :=
    @List.exists_of_eraseP User (fun a => a.id == id) db t htmem htp0
  have hl1' : ∀ b ∈ l1, (b.id == id) = false := by
    intro b hb
    have := hl1 b hb
    simp only [Bool.not_eq_true] at this
    exact this
  have hfind : db.find? (fun a => a.id == id) = some a := by
    rw [hdb]
    exact find?_first _ l1 l2 a hl1' hpa
  rw [ht] at hfind
  injection hfind with hta
  subst hta
  exact ⟨l1, l2, hl1', hdb, herase⟩

/-- C3: Delete fails with `AccountNotFound` on a missing id; fails with
`LastAdminProtected` when the target is an admin and the admin count is
at most 1; otherwise removes exactly the target row and returns its id.
Consequently a store containing an admin account still contains one
after any Delete. -/
theorem delete_spec (db : List User) (id : Nat) :
    (db.find? (fun a => a.id == id) = none →
      delete_user db id = .error .AccountNotFound)
  ∧ (∀ t, db.find? (fun a => a.id == id) = some t → t.role = "admin" →
      adminCount db ≤ 1 → delete_user db id = .error .LastAdminProtected)
  ∧ (∀ t, db.find? (fun a => a.id == id) = some t → (t.role = "admin" → 2 ≤ adminCount db) →
      ∃ l1 l2, (∀ b ∈ l1, b.id ≠ id) ∧ db = l1 ++ t :: l2
        ∧ delete_user db id = .ok (l1 ++ l2, id))
  ∧ ((∃ b ∈ db, b.role = "admin") → ∃ b ∈ deleteDb db id, b.role = "admin") := by
  refine ⟨?_, ?_, ?_, ?_⟩
  · intro hf
    simp [delete_user, hf]
  · intro t ht hrole hcount
    have hg : (t.role == "admin" && decide (adminCount db ≤ 1)) = true := by
      rw [hrole]
      simp [hcount]
    simp [delete_user, ht, hg]
  · intro t ht hcond
    have hg : (t.role == "admin" && decide (adminCount db ≤ 1)) = false := by
      by_cases hrole : t.role = "admin"
      · have h2 : ¬adminCount db ≤ 1 := by
          have := hcond hrole
          omega
        simp [h2]
      · simp [beq_eq_false_iff_ne.mpr hrole]
    obtain ⟨l1, l2, hl1, hdb, herase⟩ := delete_decomp db id t ht
    refine ⟨l1, l2, ?_, hdb, ?_⟩
    · intro b hb
      exact beq_eq_false_iff_ne.mp (hl1 b hb)
    · simp [delete_user, ht, hg, herase]
  · intro hadm
    obtain ⟨b, hb, hbrole⟩ := hadm
    unfold deleteDb
    rcases hf : db.find? (fun a => a.id == id) with _ | t
    · simp [delete_user, hf]
      exact ⟨b, hb, hbrole⟩
    · by_cases hg : (t.role == "admin" && decide (adminCount db ≤ 1)) = true
      · simp [delete_user, hf, hg]
        exact ⟨b, hb, hbrole⟩
      · simp only [Bool.not_eq_true] at hg
        simp only [delete_user, hf, hg]
        obtain ⟨l1, l2, hl1, hdb, herase⟩ := delete_decomp db id t hf
        rw [herase]
        by_cases hrole : t.role = "admin"
        · have hcount : 2 ≤ adminCount db := by
            rw [hrole] at hg
            simp at hg
            omega
          have hsplit : adminCount db
              = (l1.countP (fun a => a.role == "admin"))
                + ((t :: l2).countP (fun a => a.role == "admin")) := by
            rw [hdb]
            exact List.countP_append _ l1 (t :: l2)
          have hcons : (t :: l2).countP (fun a => a.role == "admin")
              = l2.countP (fun a => a.role == "admin") + 1 :=
            List.countP_cons_of_pos _ l2 (beq_iff_eq.mpr hrole)
          have hpos : 0 < (l1 ++ l2).countP (fun a => a.role == "admin") := by
            rw [List.countP_append]
            omega
          obtain ⟨x, hx, hxadm⟩ := List.countP_pos_iff.mp hpos
          exact ⟨x, hx, beq_iff_eq.mp hxadm⟩
        · have hbt : b ≠ t := by
            intro hc
            rw [hc] at hbrole
            exact hrole hbrole
          rw [hdb] at hb
          rcases List.mem_append.mp hb with hb' | hb'
          · exact ⟨b, List.mem_append.mpr (Or.inl hb'), hbrole⟩
          · rcases List.mem_cons.mp hb' with hb'' | hb''
            · exact absurd hb'' hbt
            · exact ⟨b, List.mem_append.mpr (Or.inr hb''), hbrole⟩

theorem delete_spec_witness :
    delete_user [⟨1, "admin", "a@x.yy", "c1", "admin", 0, 0⟩,
                 ⟨2, "user", "u@x.yy", "c2", "user", 0, 0⟩] 5 = .error .AccountNotFound
  ∧ delete_user [⟨1, "admin", "a@x.yy", "c1", "admin", 0, 0⟩,
                 ⟨2, "user", "u@x.yy", "c2", "user", 0, 0⟩] 1 = .error .LastAdminProtected
  ∧ (∃ l1 l2, (∀ b ∈ l1, b.id ≠ 2)
      ∧ [⟨1, "admin", "a@x.yy", "c1", "admin", 0, 0⟩, ⟨2, "user", "u@x.yy", "c2", "user", 0, 0⟩]
          = l1 ++ (⟨2, "user", "u@x.yy", "c2", "user", 0, 0⟩ : User) :: l2
      ∧ delete_user [⟨1, "admin", "a@x.yy", "c1", "admin", 0, 0⟩,
                     ⟨2, "user", "u@x.yy", "c2", "user", 0, 0⟩] 2 = .ok (l1 ++ l2, 2))
  ∧ (∃ b ∈ deleteDb [⟨1, "admin", "a@x.yy", "c1", "admin", 0, 0⟩,
                     ⟨2, "user", "u@x.yy", "c2", "user", 0, 0⟩] 2, b.role = "admin") := by
  refine ⟨?_, ?_, ?_, ?_⟩
  · exact (delete_spec _ 5).1 (by decide)
  · exact (delete_spec _ 1).2.1 ⟨1, "admin", "a@x.yy", "c1", "admin", 0, 0⟩
      (by decide) (by decide) (by decide)
  · exact (delete_spec _ 2).2.2.1 ⟨2, "user", "u@x.yy", "c2", "user", 0, 0⟩
      (by decide) (by decide)
  · exact (delete_spec _ 2).2.2.2 (by decide)

theorem tails_any_nil_pat (t : List Char) :
    t.tails.any (fun suf => likeMatch [] suf) = true := by
  induction t with
  | nil => rfl
  | cons c t ih => simp [List.tails_cons, ih]

theorem begMatch_nil (n : List Char) : begMatch n [] = n.isEmpty := by
  cases n <;> rfl

theorem like_prefix_eq (s : List Char) (hs : ∀ c ∈ s, c ≠ '%' ∧ c ≠ '_') :
    ∀ t, likeMatch (s ++ ['%']) t = begMatch (s.map Char.toLower) (t.map Char.toLower) := by
  induction s with
  | nil =>
    intro t
    show likeMatch ['%'] t = _
    unfold likeMatch
    rw [if_pos rfl]
    simp [tails_any_nil_pat t, begMatch]
  | cons c s' ih =>
    intro t
    have hc : c ≠ '%' ∧ c ≠ '_' := hs c (by simp)
    rw [List.cons_append]
    unfold likeMatch
    rw [if_neg hc.1]
    cases t with
    | nil => simp [begMatch]
    | cons d ts =>
      dsimp only
      rw [if_neg hc.2]
      have := ih (fun x hx => hs x (by simp [hx])) ts
      simp [begMatch, this]

theorem tails_any_beg (n : List Char) (t : List Char) :
    t.tails.any (fun suf => begMatch n (suf.map Char.toLower))
      = containsSeg n (t.map Char.toLower) := by
  induction t with
  | nil => simp [containsSeg, begMatch_nil]
  | cons c t' ih =>
    rw [List.tails_cons]
    show (begMatch n ((c :: t').map Char.toLower)
        || (t'.tails.any (fun suf => begMatch n (suf.map Char.toLower)))) = _
    rw [ih]
    rfl

theorem like_contains_eq (q : List Char) (hq : ∀ c ∈ q, c ≠ '%' ∧ c ≠ '_') (t : List Char) :
    likeMatch ('%' :: (q ++ ['%'])) t = containsSeg (q.map Char.toLower) (t.map Char.toLower) := by
  show likeMatch ('%' :: (q ++ ['%'])) t = _
  unfold likeMatch
  rw [if_pos rfl]
  have hL : ∀ suf, likeMatch (q ++ ['%']) suf
      = begMatch (q.map Char.toLower) (suf.map Char.toLower) := like_prefix_eq q hq
  simp only [hL]
  exact tails_any_beg (q.map Char.toLower) t

/-- C9 (amended): for every non-empty query free of the SQL LIKE
wildcard characters `%` and `_`, Search returns exactly the accounts
whose username or email contains the query as a case-insensitive
substring, truncated to 20 results; an empty query fails with
`EmptyQuery`.  (The query is interpolated into an ILIKE pattern, so
wildcard characters keep their pattern meaning.) -/
theorem search_spec (db : List User) (q : String) :
    (q = "" → search_users db q = .error .EmptyQuery)
  ∧ (q ≠ "" → noWildcards q →
      search_users db q
        = .ok (((db.filter
            (fun a => strContainsCI q a.username || strContainsCI q a.email)).take 20).map toDict)) := by
  constructor
  · intro h
    subst h
    rfl
  · intro h1 h2
    have he : q.isEmpty = false := string_ne_isEmpty h1
    have hfil : db.filter (fun a => likeMatch ('%' :: (q.data ++ ['%'])) a.username.data
          || likeMatch ('%' :: (q.data ++ ['%'])) a.email.data)
        = db.filter (fun a => strContainsCI q a.username || strContainsCI q a.email) := by
      apply List.filter_congr
      intro a ha
      rw [like_contains_eq q.data h2 a.username.data, like_contains_eq q.data h2 a.email.data]
      rfl
    simp [search_users, he, hfil]

/-- Refutes C9 as stated: the query is interpolated into a SQL ILIKE
pattern, so the wildcard query `"_"` matches the account with username
`"b"` and email `"c"` even though neither field contains `"_"` as a
substring. -/
theorem search_wildcard_counterexample :
    search_users [⟨1, "b", "c", "cred", "user", 0, 0⟩] "_"
      = .ok [⟨1, "b", "c", "user", 0, 0⟩]
  ∧ strContainsCI "_" "b" = false ∧ strContainsCI "_" "c" = false :=
  ⟨rfl, rfl, rfl⟩

theorem search_spec_witness :
    search_users [⟨1, "Bob", "b@x.yy", "cred", "user", 0, 0⟩] "" = .error .EmptyQuery
  ∧ search_users [⟨1, "Bob", "b@x.yy", "cred", "user", 0, 0⟩] "bo"
      = .ok ((([⟨1, "Bob", "b@x.yy", "cred", "user", 0, 0⟩].filter
          (fun a => strContainsCI "bo" a.username || strContainsCI "bo" a.email)).take 20).map toDict) := by
  constructor
  · exact (search_spec [⟨1, "Bob", "b@x.yy", "cred", "user", 0, 0⟩] "").1 rfl
  · exact (search_spec [⟨1, "Bob", "b@x.yy", "cred", "user", 0, 0⟩] "bo").2 (by decide)
      (by unfold noWildcards; decide)
